import Mathlib

/-!
Shallow embedding of the partition-routing / data-import core of the
repository, taken from two source files:

* `src/yb/client/yql-tablet-test.cc` — the table-filling, verification
  (`DoWaitSync`) and bulk-import (`Import`) logic of the YQL tablet test.
* `SystemTablet` (`yb/master/system_tablet.cc`) — the degenerate read-only
  tablet variant used for catalog/system rows.

Conventions of the embedding:

* Statuses (`yb::Status`) become the inductive `Status`; `CHECKED_STATUS`
  functions return `Status` or `Except Status _`.
* A tablet is its partition (byte-string start/end bounds), its initial
  sequence number (the `initial_seqno` flag value the owning table was
  created with) and its persisted rows, newest first; `List.lookup`
  therefore returns the newest value written for a key, as RocksDB
  sequence-number shadowing does.
* Keys and values are `int32_t` in the source; they are embedded as `Int`
  (the tests only exercise values far below the overflow boundary).
* The per-poll table contents seen by `DoWaitSync` are modelled as a pure
  snapshot function `Nat → TableState`; transport-level failures (the
  `RemoteError` branch for a non-OK YQL response) cannot arise against a
  pure snapshot and are outside the embedding.
* The cluster is modelled with a single tablet server, so the per-server
  outer loop of `Import` collapses to one pass over the tablet pairs.
* gtest `EXPECT_*` checks do not abort the function that contains them;
  they only record a failure.  The embedding therefore counts failed
  expectations (`expectFailures`) instead of short-circuiting.
-/

/-- Error taxonomy of `yb::Status`, restricted to the kinds the embedded
code can produce. -/
inductive Status where
  | ok
  | notFound (msg : String)
  | invalidArgument (msg : String)
  | corruption (msg : String)
  | remoteError (msg : String)
  | timedOut (msg : String)
  | notSupported (msg : String)
deriving DecidableEq

def Status.isOk : Status → Bool
  | .ok => true
  | _ => false

def Status.isNotFound : Status → Bool
  | .notFound _ => true
  | _ => false

def Status.isCorruption : Status → Bool
  | .corruption _ => true
  | _ => false

/-- A partition is a half-open byte-string key range; `partition()` of the
tablet metadata protobuf.  Bytes are modelled as naturals. -/
structure Partition where
  partition_key_start : List Nat
  partition_key_end : List Nat
deriving DecidableEq

/-- One tablet: its partition, the `initial_seqno` its table was created
with, and its persisted rows (key, value), newest first. -/
structure TabletState where
  partition : Partition
  initialSeqNo : Nat
  rows : List (Int × Int)
deriving DecidableEq

/-- A table is its ordered list of tablets. -/
structure TableState where
  tablets : List TabletState
deriving DecidableEq

/-- `ValueForKey` from the test: the fixed transform `f(k) = 2 * k`. -/
def ValueForKey (key : Int) : Int :=
  key * 2

/-- The keys `begin, begin + 1, ..., end - 1` visited by the loops
`for (int i = begin; i != end; ++i)` of the test (empty when `e ≤ b`). -/
def keysList (b e : Int) : List Int :=
  (List.range (e - b).toNat).map fun (i : Nat) => b + (i : Int)

/-- All values stored for key `k` across a list of tablets, one per tablet
that holds the key: the whole-table scan performed by `DoWaitSync`, which
reads every tablet and gets at most one row per tablet for a hash key. -/
def tabletVals (k : Int) (ts : List TabletState) : List Int :=
  ts.filterMap fun tab => tab.rows.lookup k

/-- All values stored for key `k` across a whole table. -/
def findKey (t : TableState) (k : Int) : List Int :=
  tabletVals k t.tablets

/-- Modelled from the spec: `tablet::Tablet::ImportData` — the storage
engine operation `ImportTabletData(destTablet, sourceDirectoryPath) ->
OK|NotFound|Error` of section 6 — is not among the given source files; only
its caller `Import` in the test is.  Per the spec it
returns `NotFound` when the source tablet has no data to import; it fails
closed (destination unchanged) when the source schema-generation domain
postdates or overlaps the destination (here: the source maximum sequence
number `initialSeqNo + #rows` reaches the destination initial sequence
number); otherwise it absorbs the source rows into the destination as an
additional, older layer and returns OK. -/
def ImportData (src dst : TabletState) : Status × TabletState :=
  if src.rows.isEmpty then
    (Status.notFound "Nothing to import", dst)
  else if dst.initialSeqNo ≤ src.initialSeqNo + src.rows.length then
    (Status.invalidArgument "Imported seqno range overlaps destination", dst)
  else
    (Status.ok, { dst with rows := dst.rows ++ src.rows })

/-- The per-tablet-pair import loop of `Import` (lines 249-263 of the
test): each pair runs the external import step; a status that is neither
OK nor NotFound aborts the whole loop at once and is returned, leaving the
remaining destination tablets untouched.  The third component counts how
many import steps were attempted. -/
def importLoop (step : TabletState → TabletState → Status × TabletState) :
    List (TabletState × TabletState) → Status × List TabletState × Nat
  | [] => (Status.ok, [], 0)
  | (s, d) :: rest =>
    let r := step s d
    if !r.1.isOk && !r.1.isNotFound then
      (r.1, r.2 :: rest.map Prod.snd, 1)
    else
      let rr := importLoop step rest
      (rr.1, r.2 :: rr.2.1, rr.2.2 + 1)

/-- The partition-compatibility expectations of `Import` (lines 229-248):
`EXPECT_EQ` on the tablet counts and, per index, on the partition start and
end bounds.  Each failed expectation is counted; none of them aborts. -/
def partitionMismatches (src dst : TableState) : Nat :=
  (if src.tablets.length = dst.tablets.length then 0 else 1) +
  ((src.tablets.zip dst.tablets).countP fun p =>
    decide (p.1.partition.partition_key_start ≠ p.2.partition.partition_key_start)) +
  ((src.tablets.zip dst.tablets).countP fun p =>
    decide (p.1.partition.partition_key_end ≠ p.2.partition.partition_key_end))

/-- Result of `Import`: the returned status, the destination table
afterwards, the number of per-tablet import steps attempted, and the
number of failed (non-fatal) gtest expectations. -/
structure ImportOutcome where
  status : Status
  dest : TableState
  attempts : Nat
  expectFailures : Nat
deriving DecidableEq

/-- `Import` from the test: compare tablet counts and pairwise partition
bounds with non-fatal expectations, then run the per-pair import loop and
return its status (`Status.OK()` when every pair was OK or NotFound).
Pairing is by index, as in the source loop; destination tablets beyond the
paired prefix are untouched. -/
def Import (src dst : TableState) : ImportOutcome :=
  let fails := partitionMismatches src dst
  let r := importLoop ImportData (src.tablets.zip dst.tablets)
  ⟨r.1, ⟨r.2.1 ++ dst.tablets.drop src.tablets.length⟩, r.2.2, fails⟩

/-- The scan of one key across all tablets inside the `condition` lambda
of `DoWaitSync` (lines 168-212): `found` starts false; a tablet that
returns a row raises `Corruption` if the key was already found, raises
`Corruption` if the value differs from `ValueForKey`, and otherwise marks
the key found. -/
def checkKeyGo (k : Int) : Bool → List TabletState → Except Status Bool
  | found, [] => .ok found
  | found, tab :: rest =>
    match tab.rows.lookup k with
    | none => checkKeyGo k found rest
    | some v =>
      if found then .error (Status.corruption "Key found twice: $0")
      else if v = ValueForKey k then checkKeyGo k true rest
      else .error (Status.corruption "Wrong value for key: $0, expected: $1")

/-- One key of the `condition` lambda: scan all tablets; a key never found
yields `NotFound`. -/
def checkKey (t : TableState) (k : Int) : Except Status Unit :=
  match checkKeyGo k false t.tablets with
  | .error s => .error s
  | .ok true => .ok ()
  | .ok false => .error (Status.notFound "Key not found: $0")

/-- The full `condition` lambda over a key list: keys are checked in
order; the first failing key decides the error. -/
def checkKeys (t : TableState) : List Int → Except Status Unit
  | [] => .ok ()
  | k :: ks =>
    match checkKey t k with
    | .error s => .error s
    | .ok _ => checkKeys t ks

/-- The `condition` lambda of `DoWaitSync` evaluated against one snapshot
of the table, for the keys `begin..end-1`. -/
def syncCondition (t : TableState) (b e : Int) : Except Status Unit :=
  checkKeys t (keysList b e)

/-- Modelled from the spec: the generic `Wait(condition, deadline, msg)`
combinator (the poll-until-converged primitive of sections 4.3/7) is not
among the given source files.  Per the spec it retries a not-yet-converged
condition (a polled key not found yet) until the deadline, surfaces
`Corruption` verbatim without retrying, and reports `TimedOut` when the
deadline elapses.  The deadline is embedded as poll fuel and the evolving
replica contents as a snapshot per poll. -/
def DoWaitSync (fuel : Nat) (snaps : Nat → TableState) (b e : Int) : Status :=
  match fuel with
  | 0 => Status.timedOut "Waiting for replication"
  | n + 1 =>
    match syncCondition (snaps 0) b e with
    | .ok _ => Status.ok
    | .error s =>
      if s.isNotFound then DoWaitSync n (fun i => snaps (i + 1)) b e else s

instance {α β : Type} [DecidableEq α] [DecidableEq β] : DecidableEq (Except α β) :=
  fun a b =>
    match a, b with
    | .ok x, .ok y => decidable_of_iff (x = y) (by simp)
    | .ok _, .error _ => isFalse (fun h => Except.noConfusion h)
    | .error _, .ok _ => isFalse (fun h => Except.noConfusion h)
    | .error x, .error y => decidable_of_iff (x = y) (by simp)

/-- Class of a per-key verification result: all good. -/
def isOkRes (r : Except Status Unit) : Bool :=
  match r with
  | .ok _ => true
  | .error _ => false

/-- Class of a per-key verification result: key not found yet (the
retryable outcome). -/
def isMissingRes (r : Except Status Unit) : Bool :=
  match r with
  | .error s => s.isNotFound
  | .ok _ => false

/-- Class of a per-key verification result: corruption detected. -/
def isCorruptRes (r : Except Status Unit) : Bool :=
  match r with
  | .error s => s.isCorruption
  | .ok _ => false

/-- Classification of the values found for one key, mirroring the branch
structure of `checkKeyGo`: no value is `NotFound`; a single correct value
is success; a first wrong value is a value-mismatch `Corruption`; a second
hit after a correct first one is a found-twice `Corruption`. -/
def keyClass (k : Int) (vals : List Int) : Except Status Unit :=
  match vals with
  | [] => .error (Status.notFound "Key not found: $0")
  | v :: vs =>
    if v = ValueForKey k then
      if vs = [] then .ok ()
      else .error (Status.corruption "Key found twice: $0")
    else .error (Status.corruption "Wrong value for key: $0, expected: $1")

/- ------------------------------------------------------------------ -/
/- SystemTablet (yb/master/system_tablet.cc)                           -/
/- ------------------------------------------------------------------ -/

/-- `HybridTime`: a 64-bit logical timestamp. -/
structure HybridTime where
  val : Nat
  isLt : val < 2 ^ 64

/-- `HybridTime::kMax`, the maximum representable hybrid time. -/
def HybridTime.kMax : HybridTime :=
  ⟨2 ^ 64 - 1, by norm_num⟩

/-- The `TableType` enum values relevant here. -/
inductive TableType where
  | YQL_TABLE_TYPE
  | REDIS_TABLE_TYPE
deriving DecidableEq

/-- A YQL read response; only the paging state matters to the embedded
code (`CreatePagingStateForRead` must not populate it). -/
structure YQLResponsePB where
  paging_state : Option String
deriving DecidableEq

/-- `SystemTablet`: constructed from a schema, a storage handle and a
tablet id.  The schema, storage and request/response protobuf types are
opaque to the embedded code and stay type parameters. -/
structure SystemTablet (S St : Type) where
  schema_ : S
  yql_storage_ : St
  tablet_id_ : String

def SystemTablet.SchemaRef {S St : Type} (t : SystemTablet S St) : S :=
  t.schema_

def SystemTablet.YQLStorage {S St : Type} (t : SystemTablet S St) : St :=
  t.yql_storage_

def SystemTablet.table_type {S St : Type} (t : SystemTablet S St) : TableType :=
  TableType.YQL_TABLE_TYPE

def SystemTablet.tablet_id {S St : Type} (t : SystemTablet S St) : String :=
  t.tablet_id_

/-- `RegisterReaderTimestamp` is a no-op; the post-state is returned. -/
def SystemTablet.RegisterReaderTimestamp {S St : Type} (t : SystemTablet S St)
    (read_point : HybridTime) : SystemTablet S St :=
  t

/-- `UnregisterReader` is a no-op; the post-state is returned. -/
def SystemTablet.UnregisterReader {S St : Type} (t : SystemTablet S St)
    (read_point : HybridTime) : SystemTablet S St :=
  t

/-- `SafeTimestampToRead` always answers `HybridTime::kMax`. -/
def SystemTablet.SafeTimestampToRead {S St : Type} (t : SystemTablet S St) :
    HybridTime :=
  HybridTime.kMax

/-- `HandleRedisReadRequest` rejects the request; the response object and
the tablet are returned untouched alongside the status. -/
def SystemTablet.HandleRedisReadRequest {S St Req Resp : Type}
    (t : SystemTablet S St) (timestamp : HybridTime)
    (redis_read_request : Req) (response : Resp) :
    Status × Resp × SystemTablet S St :=
  (Status.notSupported "RedisReadRequest is not supported for system tablets!",
   response, t)

/-- `CreatePagingStateForRead` returns OK and leaves the response object
untouched (it is a const method; no tablet post-state). -/
def SystemTablet.CreatePagingStateForRead {S St Req RB : Type}
    (t : SystemTablet S St) (yql_read_request : Req) (rowblock : RB)
    (response : YQLResponsePB) : Status × YQLResponsePB :=
  (Status.ok, response)

/- ------------------------------------------------------------------ -/
/- Concrete inputs used by witnesses and counterexamples               -/
/- ------------------------------------------------------------------ -/

/-- The whole-key-space partition. -/
def pAll : Partition :=
  ⟨[], []⟩

/-- A one-tablet source table holding keys 0 and 1 with their transform
values, created with initial seqno 0. -/
def srcSmall : TableState :=
  ⟨[⟨pAll, 0, [(0, 0), (1, 2)]⟩]⟩

/-- A one-tablet empty destination table created with a large initial
seqno. -/
def dstEmpty : TableState :=
  ⟨[⟨pAll, 100, []⟩]⟩

/-- A one-tablet destination pre-filled with keys 2 and 3 and their
transform values, created with a large initial seqno. -/
def dstFilled : TableState :=
  ⟨[⟨pAll, 100, [(2, 4), (3, 6)]⟩]⟩

/-- A late source: created with a larger initial seqno than `dstEmptyLow`
and holding one row. -/
def srcLate : TableState :=
  ⟨[⟨pAll, 100500, [(0, 0)]⟩]⟩

/-- An empty destination created with initial seqno 0. -/
def dstEmptyLow : TableState :=
  ⟨[⟨pAll, 0, []⟩]⟩

/-- A source whose single tablet has a partition end bound different from
`dstEmpty`. -/
def srcMismatched : TableState :=
  ⟨[⟨⟨[], [7]⟩, 0, [(0, 0)]⟩]⟩

/-- An empty source tablet (no data to import). -/
def tabEmptySrc : TabletState :=
  ⟨pAll, 0, []⟩

/-- A destination tablet with a large initial seqno. -/
def tabDst : TabletState :=
  ⟨pAll, 100, []⟩

/-- A source tablet whose seqno domain overlaps `tabDst`. -/
def tabLateSrc : TabletState :=
  ⟨pAll, 99, [(0, 0), (1, 2)]⟩

/-- A constant snapshot stream: the table already holds key 0. -/
def constSnaps : Nat → TableState :=
  fun _ => ⟨[⟨pAll, 0, [(0, 0)]⟩]⟩

/- ------------------------------------------------------------------ -/
/- Helper lemmas                                                       -/
/- ------------------------------------------------------------------ -/

lemma lookup_append (k : Int) (l₁ l₂ : List (Int × Int)) :
    (l₁ ++ l₂).lookup k = (l₁.lookup k).or (l₂.lookup k) := by
  induction l₁ with
  | nil => rfl
  | cons p l ih =>
    rcases p with ⟨a, b⟩
    simp only [List.cons_append, List.lookup]
    cases k == a <;> simp [ih]

lemma lookup_eq_none_of_keys (k : Int) (l : List (Int × Int))
    (h : ∀ r ∈ l, r.1 ≠ k) : l.lookup k = none := by
  induction l with
  | nil => rfl
  | cons p l ih =>
    rcases p with ⟨a, b⟩
    have ha : a ≠ k := h (a, b) (List.mem_cons_self ..)
    simp only [List.lookup]
    cases h2 : k == a with
    | false => exact ih fun r hr => h r (List.mem_cons_of_mem _ hr)
    | true => exact absurd (beq_iff_eq.1 h2).symm ha

lemma tabletVals_cons (k : Int) (tab : TabletState) (rest : List TabletState) :
    tabletVals k (tab :: rest) =
      match tab.rows.lookup k with
      | none => tabletVals k rest
      | some v => v :: tabletVals k rest := by
  cases h : tab.rows.lookup k <;> simp [tabletVals, List.filterMap_cons, h]

lemma mem_keysList (b e k : Int) : k ∈ keysList b e ↔ b ≤ k ∧ k < e := by
  unfold keysList
  rw [List.mem_map]
  constructor
  · rintro ⟨i, hi, rfl⟩
    rw [List.mem_range] at hi
    omega
  · rintro ⟨h1, h2⟩
    refine ⟨(k - b).toNat, ?_, ?_⟩
    · rw [List.mem_range]
      omega
    · omega

lemma tabletVals_merge (k : Int) (ps : List (TabletState × TabletState)) :
    tabletVals k (ps.map fun p => { p.2 with rows := p.2.rows ++ p.1.rows }) =
      ps.filterMap fun p => ((p.2.rows.lookup k).or (p.1.rows.lookup k)) := by
  induction ps with
  | nil => rfl
  | cons p rest ih =>
    simp only [List.map_cons, tabletVals_cons, lookup_append, List.filterMap_cons]
    cases (p.2.rows.lookup k).or (p.1.rows.lookup k) <;> simp [ih]

lemma filterMap_zip_fst {γ : Type} (f : TabletState → Option γ) :
    ∀ (as bs : List TabletState), as.length = bs.length →
      ((as.zip bs).filterMap fun p => f p.1) = as.filterMap f := by
  intro as
  induction as with
  | nil => intro bs _; rfl
  | cons a as ih =>
    intro bs h
    cases bs with
    | nil => simp at h
    | cons b bs =>
      simp only [List.zip_cons_cons, List.filterMap_cons]
      have h2 : as.length = bs.length := by simpa using h
      cases f a <;> simp [ih bs h2]

lemma filterMap_zip_snd {γ : Type} (f : TabletState → Option γ) :
    ∀ (as bs : List TabletState), as.length = bs.length →
      ((as.zip bs).filterMap fun p => f p.2) = bs.filterMap f := by
  intro as
  induction as with
  | nil =>
    intro bs h
    cases bs with
    | nil => rfl
    | cons b bs => simp at h
  | cons a as ih =>
    intro bs h
    cases bs with
    | nil => simp at h
    | cons b bs =>
      simp only [List.zip_cons_cons, List.filterMap_cons]
      have h2 : as.length = bs.length := by simpa using h
      cases f b <;> simp [ih bs h2]

lemma map_snd_zip_eq :
    ∀ (as bs : List TabletState), as.length = bs.length →
      (as.zip bs).map Prod.snd = bs := by
  intro as
  induction as with
  | nil =>
    intro bs h
    cases bs with
    | nil => rfl
    | cons b bs => simp at h
  | cons a as ih =>
    intro bs h
    cases bs with
    | nil => simp at h
    | cons b bs =>
      have h2 : as.length = bs.length := by simpa using h
      simp [List.zip_cons_cons, ih bs h2]

lemma importData_empty (s d : TabletState) (h : s.rows = []) :
    ImportData s d = (Status.notFound "Nothing to import", d) := by
  simp [ImportData, h]

lemma importData_compatible (s d : TabletState) (h : s.rows ≠ [])
    (hseq : s.initialSeqNo + s.rows.length < d.initialSeqNo) :
    ImportData s d = (Status.ok, { d with rows := d.rows ++ s.rows }) := by
  unfold ImportData
  rw [if_neg (by simpa [List.isEmpty_iff] using h), if_neg (by omega)]

lemma importData_incompatible (s d : TabletState) (h : s.rows ≠ [])
    (hseq : d.initialSeqNo ≤ s.initialSeqNo + s.rows.length) :
    ImportData s d =
      (Status.invalidArgument "Imported seqno range overlaps destination", d) := by
  unfold ImportData
  rw [if_neg (by simpa [List.isEmpty_iff] using h), if_pos hseq]

/-- When every pair is seqno-compatible (or has nothing to import),
the import loop succeeds, attempts every pair, and merges the source rows of
each pair under the destination rows. -/
lemma importLoop_ok (ps : List (TabletState × TabletState))
    (h : ∀ p ∈ ps, p.1.rows = [] ∨
      p.1.initialSeqNo + p.1.rows.length < p.2.initialSeqNo) :
    importLoop ImportData ps =
      (Status.ok, ps.map (fun p => { p.2 with rows := p.2.rows ++ p.1.rows }),
       ps.length) := by
  induction ps with
  | nil => rfl
  | cons p rest ih =>
    rcases p with ⟨s, d⟩
    have hrest := ih fun q hq => h q (List.mem_cons_of_mem _ hq)
    by_cases he : s.rows = []
    · have hs := importData_empty s d he
      have hd : ({ d with rows := d.rows ++ s.rows } : TabletState) = d := by
        cases d; simp [he]
      simp [importLoop, hs, Status.isOk, Status.isNotFound, hrest, hd]
    · have hlt := (h (s, d) (List.mem_cons_self ..)).resolve_left he
      have hs := importData_compatible s d he hlt
      simp [importLoop, hs, Status.isOk, Status.isNotFound, hrest]

/-- When every nonempty source tablet is seqno-incompatible with its
destination, the loop never changes a destination tablet, and fails as
soon as some source tablet is nonempty. -/
lemma importLoop_incompatible (ps : List (TabletState × TabletState))
    (h : ∀ p ∈ ps, p.1.rows ≠ [] →
      p.2.initialSeqNo ≤ p.1.initialSeqNo + p.1.rows.length) :
    (importLoop ImportData ps).2.1 = ps.map Prod.snd ∧
      ((∃ p ∈ ps, p.1.rows ≠ []) → (importLoop ImportData ps).1 ≠ Status.ok) := by
  induction ps with
  | nil => exact ⟨rfl, by rintro ⟨p, hp, -⟩; simp at hp⟩
  | cons p rest ih =>
    rcases p with ⟨s, d⟩
    have hrest := ih fun q hq => h q (List.mem_cons_of_mem _ hq)
    by_cases he : s.rows = []
    · have hs := importData_empty s d he
      refine ⟨?_, ?_⟩
      · simp [importLoop, hs, Status.isOk, Status.isNotFound, hrest.1]
      · rintro ⟨q, hq, hqne⟩
        rcases List.mem_cons.1 hq with rfl | hq
        · exact absurd he hqne
        · have := hrest.2 ⟨q, hq, hqne⟩
          simp [importLoop, hs, Status.isOk, Status.isNotFound, this]
    · have hs := importData_incompatible s d he (h (s, d) (List.mem_cons_self ..) he)
      refine ⟨?_, fun _ => ?_⟩
      · simp [importLoop, hs, Status.isOk, Status.isNotFound]
      · simp [importLoop, hs, Status.isOk, Status.isNotFound]

lemma length_eq_of_map_partition {src dst : TableState}
    (hpart : src.tablets.map TabletState.partition =
      dst.tablets.map TabletState.partition) :
    src.tablets.length = dst.tablets.length := by
  have := congrArg List.length hpart
  simpa using this

lemma isOkRes_iff (r : Except Status Unit) : isOkRes r = true ↔ r = .ok () := by
  cases r with
  | ok u => cases u; simp [isOkRes]
  | error s => simp [isOkRes]

lemma status_notFound_not_corruption (s : Status) (h : s.isNotFound = true) :
    s.isCorruption = false := by
  cases s <;> simp_all [Status.isNotFound, Status.isCorruption]

lemma checkKeyGo_true (k : Int) (ts : List TabletState) :
    checkKeyGo k true ts =
      if tabletVals k ts = [] then .ok true
      else .error (Status.corruption "Key found twice: $0") := by
  induction ts with
  | nil => simp [checkKeyGo, tabletVals]
  | cons tab rest ih =>
    rw [tabletVals_cons]
    cases h : tab.rows.lookup k with
    | none => simpa [checkKeyGo, h] using ih
    | some v => simp [checkKeyGo, h]

lemma checkKeyGo_false (k : Int) (ts : List TabletState) :
    checkKeyGo k false ts =
      match tabletVals k ts with
      | [] => .ok false
      | v :: vs =>
        if v = ValueForKey k then
          if vs = [] then .ok true
          else .error (Status.corruption "Key found twice: $0")
        else .error (Status.corruption "Wrong value for key: $0, expected: $1") := by
  induction ts with
  | nil => simp [checkKeyGo, tabletVals]
  | cons tab rest ih =>
    rw [tabletVals_cons]
    cases h : tab.rows.lookup k with
    | none => simpa [checkKeyGo, h] using ih
    | some v =>
      by_cases hv : v = ValueForKey k
      · simp [checkKeyGo, h, hv, checkKeyGo_true]
      · simp [checkKeyGo, h, hv]

lemma checkKey_eq_keyClass (t : TableState) (k : Int) :
    checkKey t k = keyClass k (findKey t k) := by
  unfold checkKey keyClass findKey
  rw [checkKeyGo_false]
  cases h : tabletVals k t.tablets with
  | nil => rfl
  | cons v vs =>
    by_cases hv : v = ValueForKey k
    · by_cases hvs : vs = [] <;> simp [hv, hvs]
    · simp [hv]

lemma keyClass_ok_iff (k : Int) (vals : List Int) :
    keyClass k vals = .ok () ↔ vals = [ValueForKey k] := by
  cases vals with
  | nil => simp [keyClass]
  | cons v vs =>
    constructor
    · intro h
      simp only [keyClass] at h
      by_cases h1 : v = ValueForKey k
      · rw [if_pos h1] at h
        by_cases h2 : vs = []
        · simp [h1, h2]
        · rw [if_neg h2] at h
          exact absurd h (by simp)
      · rw [if_neg h1] at h
        exact absurd h (by simp)
    · intro h
      obtain ⟨h1, h2⟩ : v = ValueForKey k ∧ vs = [] := by
        injection h with a b
        exact ⟨a, b⟩
      simp [keyClass, h1, h2]

lemma keyClass_missing_iff (k : Int) (vals : List Int) :
    isMissingRes (keyClass k vals) = true ↔ vals = [] := by
  cases vals with
  | nil => simp [keyClass, isMissingRes, Status.isNotFound]
  | cons v vs =>
    by_cases hv : v = ValueForKey k
    · by_cases hvs : vs = [] <;>
        simp [keyClass, hv, hvs, isMissingRes, Status.isNotFound]
    · simp [keyClass, hv, isMissingRes, Status.isNotFound]

lemma keyClass_corrupt_iff (k : Int) (vals : List Int) :
    isCorruptRes (keyClass k vals) = true ↔
      vals ≠ [] ∧ vals ≠ [ValueForKey k] := by
  cases vals with
  | nil => simp [keyClass, isCorruptRes, Status.isCorruption]
  | cons v vs =>
    constructor
    · intro h
      refine ⟨by simp, fun he => ?_⟩
      obtain ⟨h1, h2⟩ : v = ValueForKey k ∧ vs = [] := by
        injection he with a b
        exact ⟨a, b⟩
      simp [keyClass, h1, h2, isCorruptRes, Status.isCorruption] at h
    · rintro ⟨-, hne⟩
      simp only [keyClass]
      by_cases h1 : v = ValueForKey k
      · by_cases h2 : vs = []
        · exact absurd (by rw [h1, h2]) hne
        · simp [if_pos h1, if_neg h2, isCorruptRes, Status.isCorruption]
      · simp [if_neg h1, isCorruptRes, Status.isCorruption]

lemma checkKeys_ok_iff (t : TableState) (ks : List Int) :
    checkKeys t ks = .ok () ↔ ∀ k ∈ ks, checkKey t k = .ok () := by
  induction ks with
  | nil => simp [checkKeys]
  | cons k ks ih =>
    cases h : checkKey t k with
    | error s => simp [checkKeys, h]
    | ok u => cases u; simp [checkKeys, h, ih]

lemma checkKeys_error_mem (t : TableState) (ks : List Int) (s : Status)
    (h : checkKeys t ks = .error s) : ∃ k ∈ ks, checkKey t k = .error s := by
  induction ks with
  | nil => simp [checkKeys] at h
  | cons k ks ih =>
    cases hk : checkKey t k with
    | error s2 =>
      rw [checkKeys, hk] at h
      injection h with h2
      exact ⟨k, List.mem_cons_self .., by rw [hk, h2]⟩
    | ok u =>
      cases u
      rw [checkKeys, hk] at h
      obtain ⟨k2, hk2, he⟩ := ih h
      exact ⟨k2, List.mem_cons_of_mem _ hk2, he⟩

lemma keyClass_error_class (k : Int) (vals : List Int) (s : Status)
    (h : keyClass k vals = .error s) :
    s.isNotFound = true ∨ s.isCorruption = true := by
  cases vals with
  | nil =>
    simp only [keyClass] at h
    injection h with h2
    subst h2
    left
    rfl
  | cons v vs =>
    simp only [keyClass] at h
    by_cases h1 : v = ValueForKey k
    · rw [if_pos h1] at h
      by_cases h2 : vs = []
      · rw [if_pos h2] at h
        exact absurd h (by simp)
      · rw [if_neg h2] at h
        injection h with h3
        subst h3
        right
        rfl
    · rw [if_neg h1] at h
      injection h with h3
      subst h3
      right
      rfl

lemma checkKey_error_class (t : TableState) (k : Int) (s : Status)
    (h : checkKey t k = .error s) : s.isNotFound = true ∨ s.isCorruption = true := by
  rw [checkKey_eq_keyClass] at h
  exact keyClass_error_class _ _ _ h

lemma syncCondition_classes (t : TableState) (b e : Int) :
    syncCondition t b e = .ok () ∨
      isMissingRes (syncCondition t b e) = true ∨
      isCorruptRes (syncCondition t b e) = true := by
  cases h : syncCondition t b e with
  | ok u => cases u; exact Or.inl rfl
  | error s =>
    obtain ⟨k, -, hk⟩ := checkKeys_error_mem t (keysList b e) s h
    rcases checkKey_error_class t k s hk with hnf | hc
    · exact Or.inr (Or.inl (by simp [isMissingRes, hnf]))
    · exact Or.inr (Or.inr (by simp [isCorruptRes, hc]))

lemma syncCondition_ok_iff (t : TableState) (b e : Int) :
    syncCondition t b e = .ok () ↔
      ∀ k ∈ keysList b e, findKey t k = [ValueForKey k] := by
  rw [syncCondition, checkKeys_ok_iff]
  constructor
  · intro h k hk
    have := h k hk
    rw [checkKey_eq_keyClass, keyClass_ok_iff] at this
    exact this
  · intro h k hk
    rw [checkKey_eq_keyClass, keyClass_ok_iff]
    exact h k hk

lemma syncCondition_missing_key (t : TableState) (b e : Int)
    (h : isMissingRes (syncCondition t b e) = true) :
    ∃ k ∈ keysList b e, findKey t k = [] := by
  cases hs : syncCondition t b e with
  | ok u => rw [hs] at h; simp [isMissingRes] at h
  | error s =>
    rw [hs] at h
    simp only [isMissingRes] at h
    obtain ⟨k, hk, he⟩ := checkKeys_error_mem t (keysList b e) s hs
    refine ⟨k, hk, ?_⟩
    rw [checkKey_eq_keyClass] at he
    have : isMissingRes (keyClass k (findKey t k)) = true := by
      rw [he]; simpa [isMissingRes] using h
    exact (keyClass_missing_iff ..).1 this

lemma syncCondition_corrupt_key (t : TableState) (b e : Int)
    (h : isCorruptRes (syncCondition t b e) = true) :
    ∃ k ∈ keysList b e, findKey t k ≠ [] ∧ findKey t k ≠ [ValueForKey k] := by
  cases hs : syncCondition t b e with
  | ok u => rw [hs] at h; simp [isCorruptRes] at h
  | error s =>
    rw [hs] at h
    simp only [isCorruptRes] at h
    obtain ⟨k, hk, he⟩ := checkKeys_error_mem t (keysList b e) s hs
    refine ⟨k, hk, ?_⟩
    rw [checkKey_eq_keyClass] at he
    have : isCorruptRes (keyClass k (findKey t k)) = true := by
      rw [he]; simpa [isCorruptRes] using h
    exact (keyClass_corrupt_iff ..).1 this

/-- Outcome analysis of the modelled poll-until-converged loop: the result
is one of OK, a corruption error, or the deadline timeout; OK happens
exactly when some poll converges after only retryable (not-found) polls;
corruption is surfaced exactly when some poll detects it after only
retryable polls; the timeout happens exactly when every poll is
retryable. -/
lemma doWaitSync_spec (b e : Int) (fuel : Nat) (snaps : Nat → TableState) :
    (DoWaitSync fuel snaps b e = Status.ok ∨
     (DoWaitSync fuel snaps b e).isCorruption = true ∨
     DoWaitSync fuel snaps b e = Status.timedOut "Waiting for replication") ∧
    (DoWaitSync fuel snaps b e = Status.ok ↔
      ∃ i, i < fuel ∧ isOkRes (syncCondition (snaps i) b e) = true ∧
        ∀ j, j < i → isMissingRes (syncCondition (snaps j) b e) = true) ∧
    ((DoWaitSync fuel snaps b e).isCorruption = true ↔
      ∃ i, i < fuel ∧ isCorruptRes (syncCondition (snaps i) b e) = true ∧
        ∀ j, j < i → isMissingRes (syncCondition (snaps j) b e) = true) ∧
    (DoWaitSync fuel snaps b e = Status.timedOut "Waiting for replication" ↔
      ∀ i, i < fuel → isMissingRes (syncCondition (snaps i) b e) = true) := by
  induction fuel generalizing snaps with
  | zero =>
    refine ⟨Or.inr (Or.inr rfl), ?_, ?_, ?_⟩
    · simp [DoWaitSync]
    · simp [DoWaitSync, Status.isCorruption]
    · simp [DoWaitSync]
  | succ n ih =>
    rcases syncCondition_classes (snaps 0) b e with h0 | h0 | h0
    · have hd : DoWaitSync (n + 1) snaps b e = Status.ok := by
        simp [DoWaitSync, h0]
      refine ⟨Or.inl hd, ?_, ?_, ?_⟩
      · rw [hd]
        refine iff_of_true rfl ⟨0, Nat.succ_pos n, ?_, ?_⟩
        · rw [h0]
          rfl
        · intro j hj
          exact absurd hj (Nat.not_lt_zero j)
      · rw [hd]
        refine iff_of_false (by simp [Status.isCorruption]) ?_
        rintro ⟨i, hi, hcor, hmiss⟩
        cases i with
        | zero =>
          rw [h0] at hcor
          simp [isCorruptRes] at hcor
        | succ i2 =>
          have := hmiss 0 (Nat.succ_pos i2)
          rw [h0] at this
          simp [isMissingRes] at this
      · rw [hd]
        refine iff_of_false (by simp) ?_
        intro hall
        have := hall 0 (Nat.succ_pos n)
        rw [h0] at this
        simp [isMissingRes] at this
    · obtain ⟨s, hs, hnf⟩ :
          ∃ s, syncCondition (snaps 0) b e = .error s ∧ s.isNotFound = true := by
        cases hc : syncCondition (snaps 0) b e with
        | ok u =>
          rw [hc] at h0
          simp [isMissingRes] at h0
        | error s2 =>
          rw [hc] at h0
          exact ⟨s2, rfl, by simpa [isMissingRes] using h0⟩
      have hd : DoWaitSync (n + 1) snaps b e =
          DoWaitSync n (fun i => snaps (i + 1)) b e := by
        simp [DoWaitSync, hs, hnf]
      have IH := ih (fun i => snaps (i + 1))
      refine ⟨?_, ?_, ?_, ?_⟩
      · rw [hd]
        exact IH.1
      · rw [hd, IH.2.1]
        constructor
        · rintro ⟨i, hi, hok, hmiss⟩
          refine ⟨i + 1, by omega, hok, ?_⟩
          intro j hj
          cases j with
          | zero => exact h0
          | succ j2 => exact hmiss j2 (by omega)
        · rintro ⟨i, hi, hok, hmiss⟩
          cases i with
          | zero =>
            rw [hs] at hok
            simp [isOkRes] at hok
          | succ i2 =>
            exact ⟨i2, by omega, hok, fun j hj => hmiss (j + 1) (by omega)⟩
      · rw [hd, IH.2.2.1]
        constructor
        · rintro ⟨i, hi, hcor, hmiss⟩
          refine ⟨i + 1, by omega, hcor, ?_⟩
          intro j hj
          cases j with
          | zero => exact h0
          | succ j2 => exact hmiss j2 (by omega)
        · rintro ⟨i, hi, hcor, hmiss⟩
          cases i with
          | zero =>
            rw [hs] at hcor
            simp only [isCorruptRes] at hcor
            rw [status_notFound_not_corruption s hnf] at hcor
            exact absurd hcor (by simp)
          | succ i2 =>
            exact ⟨i2, by omega, hcor, fun j hj => hmiss (j + 1) (by omega)⟩
      · rw [hd, IH.2.2.2]
        constructor
        · intro hall i hi
          cases i with
          | zero => exact h0
          | succ i2 => exact hall i2 (by omega)
        · intro hall i hi
          exact hall (i + 1) (by omega)
    · obtain ⟨s, hs, hcor⟩ :
          ∃ s, syncCondition (snaps 0) b e = .error s ∧ s.isCorruption = true := by
        cases hc : syncCondition (snaps 0) b e with
        | ok u =>
          rw [hc] at h0
          simp [isCorruptRes] at h0
        | error s2 =>
          rw [hc] at h0
          exact ⟨s2, rfl, by simpa [isCorruptRes] using h0⟩
      have hnf : s.isNotFound = false := by
        cases s <;> simp_all [Status.isNotFound, Status.isCorruption]
      have hd : DoWaitSync (n + 1) snaps b e = s := by
        simp [DoWaitSync, hs, hnf]
      have hsok : s ≠ Status.ok := by
        cases s <;> simp_all [Status.isCorruption]
      have hstm : s ≠ Status.timedOut "Waiting for replication" := by
        cases s <;> simp_all [Status.isCorruption]
      refine ⟨Or.inr (Or.inl (by rw [hd]; exact hcor)), ?_, ?_, ?_⟩
      · rw [hd]
        refine iff_of_false hsok ?_
        rintro ⟨i, hi, hok, hmiss⟩
        cases i with
        | zero =>
          rw [hs] at hok
          simp [isOkRes] at hok
        | succ i2 =>
          have := hmiss 0 (Nat.succ_pos i2)
          rw [hs] at this
          simp only [isMissingRes] at this
          rw [hnf] at this
          exact absurd this (by simp)
      · rw [hd]
        refine iff_of_true hcor ⟨0, Nat.succ_pos n, ?_, ?_⟩
        · rw [hs]
          simpa [isCorruptRes] using hcor
        · intro j hj
          exact absurd hj (Nat.not_lt_zero j)
      · rw [hd]
        refine iff_of_false hstm ?_
        intro hall
        have := hall 0 (Nat.succ_pos n)
        rw [hs] at this
        simp only [isMissingRes] at this
        rw [hnf] at this
        exact absurd this (by simp)

lemma Partition.ext2 (p q : Partition)
    (h1 : p.partition_key_start = q.partition_key_start)
    (h2 : p.partition_key_end = q.partition_key_end) : p = q := by
  cases p
  cases q
  cases h1
  cases h2
  rfl

lemma import_dest_merged (src dst : TableState)
    (hlen : src.tablets.length = dst.tablets.length)
    (hseq : ∀ p ∈ src.tablets.zip dst.tablets,
      p.1.rows = [] ∨ p.1.initialSeqNo + p.1.rows.length < p.2.initialSeqNo) :
    (Import src dst).status = Status.ok ∧
      (Import src dst).dest.tablets =
        (src.tablets.zip dst.tablets).map
          fun p => { p.2 with rows := p.2.rows ++ p.1.rows } := by
  have hloop := importLoop_ok (src.tablets.zip dst.tablets) hseq
  constructor
  · simp [Import, hloop]
  · simp [Import, hloop, hlen, List.drop_length]

/- ------------------------------------------------------------------ -/
/- Claim theorems                                                      -/
/- ------------------------------------------------------------------ -/

/-- C1: for every source table holding exactly the keys 0..N-1, each key
k mapped to the transform value `ValueForKey k = 2 * k`, a
successful import into a partition-identical empty destination (with compatible
sequence numbers) returns OK and leaves every key of 0..N-1 readable from
the destination with its transform value, found exactly once across the
whole table (no duplication). -/
theorem importToEmpty_completeness (src dst : TableState) (N : Int)
    (hpart : src.tablets.map TabletState.partition =
      dst.tablets.map TabletState.partition)
    (hempty : ∀ d ∈ dst.tablets, d.rows = [])
    (hseq : ∀ p ∈ src.tablets.zip dst.tablets,
      p.1.rows = [] ∨ p.1.initialSeqNo + p.1.rows.length < p.2.initialSeqNo)
    (hsrc : ∀ k ∈ keysList 0 N, findKey src k = [ValueForKey k]) :
    (Import src dst).status = Status.ok ∧
      ∀ k ∈ keysList 0 N, findKey (Import src dst).dest k = [ValueForKey k] := by
  have hlen := length_eq_of_map_partition hpart
  obtain ⟨hstat, hdest⟩ := import_dest_merged src dst hlen hseq
  refine ⟨hstat, fun k hk => ?_⟩
  rw [findKey, hdest, tabletVals_merge]
  have hz : ∀ p ∈ src.tablets.zip dst.tablets,
      ((p.2.rows.lookup k).or (p.1.rows.lookup k)) = p.1.rows.lookup k := by
    intro p hp
    rw [hempty p.2 (List.of_mem_zip hp).2]
    rfl
  rw [List.filterMap_congr hz]
  exact (filterMap_zip_fst (fun tab => tab.rows.lookup k) src.tablets
    dst.tablets hlen).trans (by simpa [findKey, tabletVals] using hsrc k hk)

/-- Witness for C1 at a concrete instance: a one-tablet source with keys
0 and 1 imported into an empty partition-identical destination. -/
theorem importToEmpty_completeness_witness :
    (Import srcSmall dstEmpty).status = Status.ok ∧
      findKey (Import srcSmall dstEmpty).dest 0 = [ValueForKey 0] ∧
      findKey (Import srcSmall dstEmpty).dest 1 = [ValueForKey 1] := by
  have h := importToEmpty_completeness srcSmall dstEmpty 2
    (by decide) (by decide) (by decide) (by decide)
  exact ⟨h.1, h.2 0 (by decide), h.2 1 (by decide)⟩

/-- C2 counterexample: a source/destination pair whose partitions differ
(one expectation fails), yet `Import` returns OK, attempts the
per-tablet import, and changes the destination — the mismatch neither yields an
`InvalidArgument`/`Corruption` status nor prevents the tablet import,
because the checks are non-fatal gtest expectations. -/
theorem import_partition_mismatch_counterexample :
    (Import srcMismatched dstEmpty).expectFailures = 1 ∧
      (Import srcMismatched dstEmpty).status = Status.ok ∧
      (Import srcMismatched dstEmpty).attempts = 1 ∧
      (Import srcMismatched dstEmpty).dest ≠ dstEmpty := by
  decide

/-- C2 (amended): `Import` evaluates the tablet-count and pairwise
partition-bound comparisons before any per-tablet data movement, and a
mismatch records an expectation failure (`expectFailures = 0` exactly when
the counts and all paired bounds agree); but the mismatch does not gate
the import: the returned status and the attempted per-tablet imports are
exactly those of the import loop, regardless of the comparisons. -/
theorem import_partition_checks_nonfatal (src dst : TableState) :
    ((Import src dst).expectFailures = 0 ↔
      (src.tablets.length = dst.tablets.length ∧
        ∀ p ∈ src.tablets.zip dst.tablets, p.1.partition = p.2.partition)) ∧
    (Import src dst).status =
      (importLoop ImportData (src.tablets.zip dst.tablets)).1 ∧
    (Import src dst).attempts =
      (importLoop ImportData (src.tablets.zip dst.tablets)).2.2 := by
  refine ⟨?_, rfl, rfl⟩
  show partitionMismatches src dst = 0 ↔ _
  unfold partitionMismatches
  rw [Nat.add_eq_zero, Nat.add_eq_zero]
  constructor
  · rintro ⟨⟨hA, hB⟩, hC⟩
    refine ⟨?_, fun p hp => ?_⟩
    · by_contra h
      simp [h] at hA
    · have hs := List.countP_eq_zero.1 hB p hp
      have he := List.countP_eq_zero.1 hC p hp
      simp only [decide_eq_true_eq, not_not] at hs he
      exact Partition.ext2 _ _ hs he
  · rintro ⟨hlen, hpairs⟩
    refine ⟨⟨by simp [hlen], ?_⟩, ?_⟩
    · exact List.countP_eq_zero.2 fun p hp => by simp [hpairs p hp]
    · exact List.countP_eq_zero.2 fun p hp => by simp [hpairs p hp]

/-- Witness for the amended C2 at a concrete instance: matching
partitions mean zero expectation failures. -/
theorem import_partition_checks_nonfatal_witness :
    (Import srcSmall dstEmpty).expectFailures = 0 :=
  (import_partition_checks_nonfatal srcSmall dstEmpty).1.mpr
    ⟨by decide, by decide⟩

/-- C3: the poll-until-converged verification has exactly three outcomes:
OK exactly when at some poll before the deadline every polled key is found
exactly once across all tablets with its transform value (all earlier
polls being retryable not-found polls); `Corruption` exactly when some
poll detects a corruption after only retryable polls — and a detected
corruption means some key was found more than once or with a wrong value;
and the timeout exactly when every poll before the deadline still misses
some key (a missing-class poll has a key with no value anywhere). -/
theorem doWaitSync_trichotomy (fuel : Nat) (snaps : Nat → TableState) (b e : Int) :
    (DoWaitSync fuel snaps b e = Status.ok ∨
     (DoWaitSync fuel snaps b e).isCorruption = true ∨
     DoWaitSync fuel snaps b e = Status.timedOut "Waiting for replication") ∧
    (DoWaitSync fuel snaps b e = Status.ok ↔
      ∃ i, i < fuel ∧
        (∀ k ∈ keysList b e, findKey (snaps i) k = [ValueForKey k]) ∧
        ∀ j, j < i → isMissingRes (syncCondition (snaps j) b e) = true) ∧
    ((DoWaitSync fuel snaps b e).isCorruption = true ↔
      ∃ i, i < fuel ∧ isCorruptRes (syncCondition (snaps i) b e) = true ∧
        ∀ j, j < i → isMissingRes (syncCondition (snaps j) b e) = true) ∧
    (DoWaitSync fuel snaps b e = Status.timedOut "Waiting for replication" ↔
      ∀ i, i < fuel → isMissingRes (syncCondition (snaps i) b e) = true) ∧
    (∀ t, isMissingRes (syncCondition t b e) = true →
      ∃ k ∈ keysList b e, findKey t k = []) ∧
    (∀ t, isCorruptRes (syncCondition t b e) = true →
      ∃ k ∈ keysList b e, findKey t k ≠ [] ∧ findKey t k ≠ [ValueForKey k]) := by
  have h := doWaitSync_spec b e fuel snaps
  refine ⟨h.1, ?_, h.2.2.1, h.2.2.2,
    fun t => syncCondition_missing_key t b e,
    fun t => syncCondition_corrupt_key t b e⟩
  rw [h.2.1]
  exact exists_congr fun i => and_congr_right fun _ =>
    and_congr_left fun _ => by rw [isOkRes_iff, syncCondition_ok_iff]

/-- Witness for C3 at a concrete instance: a table already holding key 0
converges at the first poll. -/
theorem doWaitSync_trichotomy_witness :
    DoWaitSync 1 constSnaps 0 1 = Status.ok :=
  (doWaitSync_trichotomy 1 constSnaps 0 1).2.1.mpr
    ⟨0, Nat.zero_lt_one, by decide, fun j hj => absurd hj (Nat.not_lt_zero j)⟩

/-- C4: when every nonempty source tablet is seqno-incompatible with its
paired destination tablet (the source generation domain postdates or
overlaps the destination) and at least one source tablet has data,
`Import` fails and the destination is left visibly unchanged — no row is
transferred. -/
theorem import_incompatible_fails (src dst : TableState)
    (hlen : src.tablets.length = dst.tablets.length)
    (hinc : ∀ p ∈ src.tablets.zip dst.tablets,
      p.1.rows ≠ [] → p.2.initialSeqNo ≤ p.1.initialSeqNo + p.1.rows.length)
    (hne : ∃ p ∈ src.tablets.zip dst.tablets, p.1.rows ≠ []) :
    (Import src dst).status ≠ Status.ok ∧ (Import src dst).dest = dst := by
  obtain ⟨hdests, hfail⟩ := importLoop_incompatible (src.tablets.zip dst.tablets) hinc
  constructor
  · intro h
    exact hfail hne (by simpa [Import] using h)
  · have : (Import src dst).dest.tablets = dst.tablets := by
      simp [Import, hdests, hlen, List.drop_length,
        map_snd_zip_eq src.tablets dst.tablets hlen]
    cases hdd : (Import src dst).dest
    cases dst
    simpa [hdd] using this

/-- Witness for C4 at a concrete instance: a source created with
generation 100500 against a destination created with generation 0 (the
`LateImport` shape). -/
theorem import_incompatible_fails_witness :
    (Import srcLate dstEmptyLow).status ≠ Status.ok ∧
      (Import srcLate dstEmptyLow).dest = dstEmptyLow := by
  exact import_incompatible_fails srcLate dstEmptyLow
    (by decide) (by decide) (by decide)

/-- C5: import into a non-empty destination is additive: with the source
holding exactly keys 0..N-1 and the destination pre-filled with exactly
keys N..2N-1 (each with its transform value, partitions identical,
sequence numbers compatible), the import returns OK and the destination
then holds exactly the union 0..2N-1 — every key readable exactly once
with its transform value, and no other key present. -/
theorem importToNonEmpty_additive (src dst : TableState) (N : Int)
    (hpart : src.tablets.map TabletState.partition =
      dst.tablets.map TabletState.partition)
    (hseq : ∀ p ∈ src.tablets.zip dst.tablets,
      p.1.rows = [] ∨ p.1.initialSeqNo + p.1.rows.length < p.2.initialSeqNo)
    (hsrc : ∀ k ∈ keysList 0 N, findKey src k = [ValueForKey k])
    (hsrcOnly : ∀ tab ∈ src.tablets, ∀ r ∈ tab.rows, r.1 ∈ keysList 0 N)
    (hdst : ∀ k ∈ keysList N (2 * N), findKey dst k = [ValueForKey k])
    (hdstOnly : ∀ tab ∈ dst.tablets, ∀ r ∈ tab.rows, r.1 ∈ keysList N (2 * N)) :
    (Import src dst).status = Status.ok ∧
      (∀ k ∈ keysList 0 (2 * N),
        findKey (Import src dst).dest k = [ValueForKey k]) ∧
      (∀ k : Int, k ∉ keysList 0 (2 * N) →
        findKey (Import src dst).dest k = []) := by
  have hlen := length_eq_of_map_partition hpart
  obtain ⟨hstat, hdest⟩ := import_dest_merged src dst hlen hseq
  have hsrcNone : ∀ k : Int, k ∉ keysList 0 N →
      ∀ tab ∈ src.tablets, tab.rows.lookup k = none := by
    intro k hk tab htab
    refine lookup_eq_none_of_keys k tab.rows fun r hr heq => ?_
    exact hk (heq ▸ hsrcOnly tab htab r hr)
  have hdstNone : ∀ k : Int, k ∉ keysList N (2 * N) →
      ∀ tab ∈ dst.tablets, tab.rows.lookup k = none := by
    intro k hk tab htab
    refine lookup_eq_none_of_keys k tab.rows fun r hr heq => ?_
    exact hk (heq ▸ hdstOnly tab htab r hr)
  refine ⟨hstat, fun k hk => ?_, fun k hk => ?_⟩
  · rw [findKey, hdest, tabletVals_merge]
    rw [mem_keysList] at hk
    by_cases hksmall : k < N
    · have hkin : k ∈ keysList 0 N := (mem_keysList ..).2 ⟨hk.1, hksmall⟩
      have hknot : k ∉ keysList N (2 * N) := by
        rw [mem_keysList]
        omega
      have hz : ∀ p ∈ src.tablets.zip dst.tablets,
          ((p.2.rows.lookup k).or (p.1.rows.lookup k)) = p.1.rows.lookup k := by
        intro p hp
        rw [hdstNone k hknot p.2 (List.of_mem_zip hp).2]
        rfl
      rw [List.filterMap_congr hz]
      exact (filterMap_zip_fst (fun tab => tab.rows.lookup k) src.tablets
        dst.tablets hlen).trans
        (by simpa [findKey, tabletVals] using hsrc k hkin)
    · have hkin : k ∈ keysList N (2 * N) := by
        rw [mem_keysList]
        omega
      have hknot : k ∉ keysList 0 N := by
        rw [mem_keysList]
        omega
      have hz : ∀ p ∈ src.tablets.zip dst.tablets,
          ((p.2.rows.lookup k).or (p.1.rows.lookup k)) = p.2.rows.lookup k := by
        intro p hp
        rw [hsrcNone k hknot p.1 (List.of_mem_zip hp).1, Option.or_none]
      rw [List.filterMap_congr hz]
      exact (filterMap_zip_snd (fun tab => tab.rows.lookup k) src.tablets
        dst.tablets hlen).trans
        (by simpa [findKey, tabletVals] using hdst k hkin)
  · rw [findKey, hdest, tabletVals_merge]
    rw [mem_keysList] at hk
    have hknotS : k ∉ keysList 0 N := by
      rw [mem_keysList]
      omega
    have hknotD : k ∉ keysList N (2 * N) := by
      rw [mem_keysList]
      omega
    refine List.filterMap_eq_nil_iff.2 fun p hp => ?_
    rw [hsrcNone k hknotS p.1 (List.of_mem_zip hp).1,
      hdstNone k hknotD p.2 (List.of_mem_zip hp).2]
    rfl

/-- Witness for C5 at a concrete instance: source holds keys 0 and 1, the
destination is pre-filled with keys 2 and 3; the union 0..3 is readable
afterwards and key 4 is absent. -/
theorem importToNonEmpty_additive_witness :
    (Import srcSmall dstFilled).status = Status.ok ∧
      findKey (Import srcSmall dstFilled).dest 0 = [ValueForKey 0] ∧
      findKey (Import srcSmall dstFilled).dest 1 = [ValueForKey 1] ∧
      findKey (Import srcSmall dstFilled).dest 2 = [ValueForKey 2] ∧
      findKey (Import srcSmall dstFilled).dest 3 = [ValueForKey 3] ∧
      findKey (Import srcSmall dstFilled).dest 4 = [] := by
  have h := importToNonEmpty_additive srcSmall dstFilled 2
    (by decide) (by decide) (by decide) (by decide) (by decide) (by decide)
  exact ⟨h.1, h.2.1 0 (by decide), h.2.1 1 (by decide), h.2.1 2 (by decide),
    h.2.1 3 (by decide), h.2.2 4 (by decide)⟩

/-- C6: in the per-tablet import loop, a step returning NotFound (which
for the modelled `ImportData` happens exactly when the source tablet has
no rows) is treated as success — the loop keeps the step result and
continues with the remaining pairs; a step whose status is neither OK nor
NotFound aborts the whole loop at once, its status is returned, and the
remaining destination tablets are left untouched (earlier results, being
part of the continued recursion, stay in place). -/
theorem importLoop_notFound_continues
    (step : TabletState → TabletState → Status × TabletState)
    (s d : TabletState) (rest : List (TabletState × TabletState)) :
    ((step s d).1.isNotFound = true →
      importLoop step ((s, d) :: rest) =
        ((importLoop step rest).1,
         (step s d).2 :: (importLoop step rest).2.1,
         (importLoop step rest).2.2 + 1)) ∧
    ((step s d).1.isOk = false → (step s d).1.isNotFound = false →
      importLoop step ((s, d) :: rest) =
        ((step s d).1, (step s d).2 :: rest.map Prod.snd, 1)) ∧
    ((ImportData s d).1.isNotFound = true ↔ s.rows = []) := by
  refine ⟨fun h => ?_, fun h1 h2 => ?_, ?_⟩
  · simp [importLoop, h]
  · simp [importLoop, h1, h2]
  · constructor
    · intro h
      by_contra hne
      by_cases hseq : d.initialSeqNo ≤ s.initialSeqNo + s.rows.length
      · rw [importData_incompatible s d hne hseq] at h
        simp [Status.isNotFound] at h
      · rw [importData_compatible s d hne (by omega)] at h
        simp [Status.isNotFound] at h
    · intro h
      rw [importData_empty s d h]
      rfl

/-- Witness for C6 at concrete instances: an empty source tablet makes
the loop continue past it; an incompatible nonempty source tablet aborts
the loop with the rest untouched. -/
theorem importLoop_notFound_continues_witness :
    importLoop ImportData ((tabEmptySrc, tabDst) :: [(tabLateSrc, tabDst)]) =
      ((importLoop ImportData [(tabLateSrc, tabDst)]).1,
       (ImportData tabEmptySrc tabDst).2 ::
         (importLoop ImportData [(tabLateSrc, tabDst)]).2.1,
       (importLoop ImportData [(tabLateSrc, tabDst)]).2.2 + 1) ∧
    importLoop ImportData ((tabLateSrc, tabDst) :: [(tabEmptySrc, tabDst)]) =
      ((ImportData tabLateSrc tabDst).1,
       (ImportData tabLateSrc tabDst).2 :: [(tabEmptySrc, tabDst)].map Prod.snd,
       1) :=
  ⟨(importLoop_notFound_continues ImportData tabEmptySrc tabDst
      [(tabLateSrc, tabDst)]).1 (by decide),
   (importLoop_notFound_continues ImportData tabLateSrc tabDst
      [(tabEmptySrc, tabDst)]).2.1 (by decide) (by decide)⟩

/-- C7: for every system tablet and every read-point,
`SafeTimestampToRead` returns `HybridTime::kMax`, the maximum
representable hybrid time — every read-point is below it, so reads are
always considered safe. -/
theorem systemTablet_safe_timestamp_max {S St : Type} (t : SystemTablet S St)
    (read_point : HybridTime) :
    t.SafeTimestampToRead = HybridTime.kMax ∧
      read_point.val ≤ t.SafeTimestampToRead.val ∧
      t.SafeTimestampToRead.val = 2 ^ 64 - 1 := by
  refine ⟨rfl, ?_, rfl⟩
  have h := read_point.isLt
  show read_point.val ≤ 2 ^ 64 - 1
  omega

/-- C8: every foreign-protocol (Redis) read request against a system
tablet, at any timestamp, returns the NotSupported error, leaving the
response object and the tablet untouched — it is rejected, not served. -/
theorem systemTablet_redis_rejected {S St Req Resp : Type}
    (t : SystemTablet S St) (timestamp : HybridTime) (req : Req) (resp : Resp) :
    t.HandleRedisReadRequest timestamp req resp =
      (Status.notSupported "RedisReadRequest is not supported for system tablets!",
       resp, t) :=
  rfl

/-- C9: for every system tablet, read request and row block (of any
size), `CreatePagingStateForRead` returns OK and writes nothing into the
response object — in particular the paging state is exactly what it was
before. -/
theorem systemTablet_no_paging {S St Req RB : Type} (t : SystemTablet S St)
    (yql_read_request : Req) (rowblock : RB) (response : YQLResponsePB) :
    t.CreatePagingStateForRead yql_read_request rowblock response =
        (Status.ok, response) ∧
      (t.CreatePagingStateForRead yql_read_request rowblock response).2.paging_state
        = response.paging_state :=
  ⟨rfl, rfl⟩

/-- C10: a system tablet is immutable after construction: the accessors
return exactly the construction-time schema, storage and identifier,
`table_type` is always the YQL table type, and the reader
registration/unregistration operations and the Redis read handler leave
the tablet exactly as constructed. -/
theorem systemTablet_immutable {S St Req Resp : Type} (sch : S) (stor : St)
    (id : String) (rp ts : HybridTime) (rreq : Req) (rresp : Resp) :
    (SystemTablet.mk sch stor id : SystemTablet S St).SchemaRef = sch ∧
      (SystemTablet.mk sch stor id : SystemTablet S St).YQLStorage = stor ∧
      (SystemTablet.mk sch stor id : SystemTablet S St).tablet_id = id ∧
      (SystemTablet.mk sch stor id : SystemTablet S St).table_type =
        TableType.YQL_TABLE_TYPE ∧
      (SystemTablet.mk sch stor id : SystemTablet S St).RegisterReaderTimestamp rp
        = SystemTablet.mk sch stor id ∧
      (SystemTablet.mk sch stor id : SystemTablet S St).UnregisterReader rp
        = SystemTablet.mk sch stor id ∧
      ((SystemTablet.mk sch stor id : SystemTablet S St).HandleRedisReadRequest
        ts rreq rresp).2.2 = SystemTablet.mk sch stor id :=
  ⟨rfl, rfl, rfl, rfl, rfl, rfl, rfl⟩

